import Mathlib

/-!
Verification of the log-analyzer line-parsing and filter/aggregation
pipeline (src/main.go) against its specification.

Modelling conventions, used throughout:
 * Go strings are modelled at rune (Char) level as Lean `String`/`List Char`.
   Go indexes and measures strings in bytes; all layout strings and keywords
   involved are ASCII, where the two coincide.
 * `strings.ToUpper`/`ToLower` are modelled by ASCII case mapping
   (`Char.toUpper`/`Char.toLower`); Go uses full Unicode tables, which agree
   on ASCII (all case-sensitive comparisons in the program involve ASCII
   keywords).
 * `time.Time` is modelled as a civil datetime plus a fixed zone offset in
   minutes (`GoTime`): Go's `time.Parse` with the layouts used here yields
   exactly such times.  Instant comparison (`Before`/`After`/`IsZero`)
   goes through `toAbs`, seconds since Go's zero time
   (January 1, year 1, 00:00:00 UTC), matching Go's internal encoding.
 * Nondeterministic Go map iteration (in `printTopMap`) is made explicit:
   the model takes the iteration sequence as a parameter.
-/

namespace LogA

/-! ## Character and string helpers (models of Go's strings package) -/

/-- Left brace character, written via its code point. -/
def lbrace : Char := Char.ofNat 123

/-- Right brace character, written via its code point. -/
def rbrace : Char := Char.ofNat 125

/-- ASCII whitespace accepted by `strings.TrimSpace` (`unicode.IsSpace`
restricted to ASCII): space, \t, \n, \v, \f, \r. -/
def goIsSpace (c : Char) : Bool :=
  c == ' ' || c == '\t' || c == '\n' || c == Char.ofNat 11 || c == Char.ofNat 12 || c == '\r'

/-- Whitespace class of Go's regexp \s: [\t\n\f\r ] (no \v). -/
def reIsSpace (c : Char) : Bool :=
  c == ' ' || c == '\t' || c == '\n' || c == Char.ofNat 12 || c == '\r'

/-- strings.ToUpper, ASCII model. -/
def goToUpper (s : String) : String := String.mk (s.toList.map Char.toUpper)

/-- strings.ToLower, ASCII model. -/
def goToLower (s : String) : String := String.mk (s.toList.map Char.toLower)

/-- Does the list `s` start with the list `pre`?  (strings.HasPrefix) -/
def startsWithL (s pre : List Char) : Bool :=
  match s, pre with
  | _, [] => true
  | [], _ :: _ => false
  | a :: as, b :: bs => a == b && startsWithL as bs

/-- Does `l` contain `pat` as a contiguous sublist?  (strings.Contains) -/
def containsL (pat : List Char) : List Char → Bool
  | [] => pat.isEmpty
  | c :: cs => startsWithL (c :: cs) pat || containsL pat cs

/-- strings.HasPrefix. -/
def goStartsWith (s pre : String) : Bool := startsWithL s.toList pre.toList

/-- strings.Contains. -/
def goContains (s sub : String) : Bool := containsL sub.toList s.toList

/-- strings.TrimSpace (ASCII model): drop whitespace from both ends. -/
def goTrimSpace (s : String) : String :=
  String.mk (((s.toList.dropWhile goIsSpace).reverse.dropWhile goIsSpace).reverse)

/-- `needle` occurs as a contiguous substring of `hay` (specification-level
notion used to state claims about the substring scans). -/
def occursIn (needle hay : String) : Prop :=
  ∃ pre post, hay.toList = pre ++ needle.toList ++ post

theorem startsWithL_iff (pre : List Char) :
    ∀ s, startsWithL s pre = true ↔ ∃ rest, s = pre ++ rest := by
  induction pre with
  | nil =>
    intro s
    constructor
    · intro _; exact ⟨s, rfl⟩
    · intro _; cases s <;> rfl
  | cons b bs ih =>
    intro s
    cases s with
    | nil =>
      simp only [startsWithL]
      constructor
      · intro h; cases h
      · rintro ⟨rest, h⟩; cases h
    | cons a as =>
      simp only [startsWithL, Bool.and_eq_true, beq_iff_eq, ih as]
      constructor
      · rintro ⟨rfl, rest, rfl⟩; exact ⟨rest, rfl⟩
      · rintro ⟨rest, h⟩
        injection h with h1 h2
        exact ⟨h1, rest, h2⟩

theorem containsL_iff (pat : List Char) :
    ∀ l, containsL pat l = true ↔ ∃ pre post, l = pre ++ pat ++ post := by
  intro l
  induction l with
  | nil =>
    simp only [containsL, List.isEmpty_iff]
    constructor
    · intro h; exact ⟨[], [], by simp [h]⟩
    · rintro ⟨pre, post, h⟩
      rcases pre <;> rcases pat <;> simp_all
  | cons c cs ih =>
    simp only [containsL, Bool.or_eq_true, startsWithL_iff, ih]
    constructor
    · rintro (⟨rest, h⟩ | ⟨pre, post, h⟩)
      · exact ⟨[], rest, by simp [h]⟩
      · exact ⟨c :: pre, post, by simp [h]⟩
    · rintro ⟨pre, post, h⟩
      cases pre with
      | nil => exact Or.inl ⟨post, by simpa using h⟩
      | cons p ps =>
        injection h with h1 h2
        exact Or.inr ⟨ps, post, h2⟩

theorem goContains_iff (s sub : String) :
    goContains s sub = true ↔ occursIn sub s := by
  unfold goContains occursIn
  exact containsL_iff sub.toList s.toList

/-! ## Model of time.Time

A parsed time is a civil datetime plus a fixed zone offset in minutes.
`toAbs` converts to seconds since Go's zero time (Jan 1, year 1, 00:00:00
UTC); `IsZero`, `Before` and `After` compare instants exactly as Go's
`time.Time` does. -/

structure GoTime where
  year : Int
  month : Int
  day : Int
  hour : Int
  minute : Int
  second : Int
  offMin : Int
deriving DecidableEq, Repr

/-- The Go zero time: January 1, year 1, 00:00:00 UTC. -/
def goZeroTime : GoTime := ⟨1, 1, 1, 0, 0, 0, 0⟩

/-- Proleptic-Gregorian leap year (Go's `isLeap`). -/
def isLeapYear (y : Int) : Bool :=
  y % 4 == 0 && (y % 100 != 0 || y % 400 == 0)

/-- Days in a month of a given (proleptic-Gregorian) year. -/
def daysInMonth (y m : Int) : Int :=
  if m == 2 then (if isLeapYear y then 29 else 28)
  else if m == 4 || m == 6 || m == 9 || m == 11 then 30
  else 31

/-- Days since 1970-01-01 of a civil date (valid for all integer years;
Howard Hinnant's days-from-civil algorithm, the arithmetic Go's
`absDate`/`daysSinceEpoch` implements). -/
def daysFromCivil (y m d : Int) : Int :=
  let yy := if m ≤ 2 then y - 1 else y
  let era := Int.fdiv yy 400
  let yoe := yy - era * 400
  let mp := (m + 9) % 12
  let doy := Int.fdiv (153 * mp + 2) 5 + d - 1
  let doe := yoe * 365 + Int.fdiv yoe 4 - Int.fdiv yoe 100 + doy
  era * 146097 + doe - 719468

/-- Seconds since the Go zero instant (Jan 1, year 1, 00:00:00 UTC). -/
def toAbs (t : GoTime) : Int :=
  (daysFromCivil t.year t.month t.day + 719162) * 86400
    + t.hour * 3600 + t.minute * 60 + t.second - t.offMin * 60

/-- time.Time.IsZero: the instant is the zero instant. -/
def goIsZero (t : GoTime) : Bool := toAbs t == 0

/-- time.Time.Before: instant comparison. -/
def goBefore (a b : GoTime) : Bool := decide (toAbs a < toAbs b)

/-- time.Time.After: instant comparison. -/
def goAfter (a b : GoTime) : Bool := decide (toAbs b < toAbs a)

/-- Normalize a civil date whose day may overflow its month, carrying into
following months/years (the normalization Go's `time.Date` performs; the
call sites only ever produce day ≥ 1, so only forward carry is needed;
the fuel bounds the carry and is never exhausted for day ≤ 31). -/
def normDate (fuel : Nat) (y m d : Int) : Int × Int × Int :=
  match fuel with
  | 0 => (y, m, d)
  | fuel + 1 =>
    if d ≤ daysInMonth y m then (y, m, d)
    else if m == 12 then normDate fuel (y + 1) 1 (d - 31)
    else normDate fuel y (m + 1) (d - daysInMonth y m)

/-- time.Time.AddDate(years, months, days): add the offsets to the civil
fields and renormalize via `time.Date` semantics (month overflow first,
then day overflow). -/
def addDate (t : GoTime) (years months days : Int) : GoTime :=
  let y1 := t.year + years + Int.fdiv (t.month - 1 + months) 12
  let m1 := (t.month - 1 + months) % 12 + 1
  let d0 := t.day + days
  let n := normDate 1000 y1 m1 d0
  { t with year := n.1, month := n.2.1, day := n.2.2 }

/-! ## Model of time.Parse for the reference layouts of main.go

The interpreter walks the layout string recognizing exactly the standard
chunks that occur in the layouts this program uses ("2006", "01", "02",
"15", "04", "05", "Jan", "2", "Z07:00", "-0700"); every other layout
character is a literal.  Numeric fields follow Go's getnum: "15" and "2"
accept one or two digits, zero-padded chunks exactly two; "Jan" matches a
three-letter month name case-insensitively; a fractional second in the
value but not in the layout is consumed and discarded; the whole value
must be consumed; ranges are validated as time.Parse does. -/

/-- Numeric value of a decimal digit character. -/
def digitVal (c : Char) : Int := Int.ofNat (c.toNat - '0'.toNat)

/-- Exactly two digits (Go getnum with fixed width). -/
def num2 : List Char → Option (Int × List Char)
  | a :: b :: rest =>
    if a.isDigit && b.isDigit then some (digitVal a * 10 + digitVal b, rest) else none
  | _ => none

/-- One or two digits (Go getnum without fixed width). -/
def num1or2 : List Char → Option (Int × List Char)
  | [] => none
  | [a] => if a.isDigit then some (digitVal a, []) else none
  | a :: b :: rest =>
    if a.isDigit then
      if b.isDigit then some (digitVal a * 10 + digitVal b, rest)
      else some (digitVal a, b :: rest)
    else none

/-- Exactly four digits (Go stdLongYear). -/
def num4 : List Char → Option (Int × List Char)
  | a :: b :: c :: d :: rest =>
    if a.isDigit && b.isDigit && c.isDigit && d.isDigit then
      some (digitVal a * 1000 + digitVal b * 100 + digitVal c * 10 + digitVal d, rest)
    else none
  | _ => none

/-- The short month names Go's lookup matches (case-insensitively). -/
def monthNames : List String :=
  ["jan", "feb", "mar", "apr", "may", "jun", "jul", "aug", "sep", "oct", "nov", "dec"]

/-- A three-letter month name, case-insensitive (Go's lookup of "Jan"). -/
def monName : List Char → Option (Int × List Char)
  | a :: b :: c :: rest =>
    let w := String.mk [a.toLower, b.toLower, c.toLower]
    match monthNames.findIdx? (fun n => n == w) with
    | some i => some (Int.ofNat (i + 1), rest)
    | none => none
  | _ => none

/-- Numeric zone "Z07:00": the letter Z, or a signed hh:mm offset, in
minutes (Go stdISO8601ColonTZ). -/
def zoneColon : List Char → Option (Int × List Char)
  | 'Z' :: rest => some (0, rest)
  | c :: h1 :: h2 :: ':' :: m1 :: m2 :: rest =>
    if (c == '+' || c == '-') && h1.isDigit && h2.isDigit && m1.isDigit && m2.isDigit then
      let off := (digitVal h1 * 10 + digitVal h2) * 60 + digitVal m1 * 10 + digitVal m2
      some (if c == '-' then -off else off, rest)
    else none
  | _ => none

/-- Numeric zone "-0700": a signed hhmm offset, in minutes (Go stdNumTZ). -/
def zoneNum : List Char → Option (Int × List Char)
  | c :: h1 :: h2 :: m1 :: m2 :: rest =>
    if (c == '+' || c == '-') && h1.isDigit && h2.isDigit && m1.isDigit && m2.isDigit then
      let off := (digitVal h1 * 10 + digitVal h2) * 60 + digitVal m1 * 10 + digitVal m2
      some (if c == '-' then -off else off, rest)
    else none
  | _ => none

/-- After the seconds chunk, a fractional second present in the value but
absent from the layout is consumed and discarded (Go's special case in
Parse). -/
def skipFrac : List Char → List Char
  | c :: d1 :: rest =>
    if (c == '.' || c == ',') && d1.isDigit then (d1 :: rest).dropWhile Char.isDigit
    else c :: d1 :: rest
  | l => l

/-- Fields accumulated while parsing a value against a layout; Go's
defaults: year 0, January 1, 00:00:00, UTC. -/
structure ParseAcc where
  y : Int
  mo : Int
  d : Int
  h : Int
  mi : Int
  s : Int
  off : Int
deriving DecidableEq, Repr

/-- Walk the layout (first argument) against the value (second argument).
The chunk cases are ordered so that longer chunks win ("2006" before "2",
"-0700" before the literal '-'), as Go's nextStdChunk does. -/
def runLayout : List Char → List Char → ParseAcc → Option ParseAcc
  | [], val, st => if val.isEmpty then some st else none
  | '2' :: '0' :: '0' :: '6' :: rest, val, st =>
    (match num4 val with
     | some (n, v) => runLayout rest v { st with y := n }
     | none => none)
  | '0' :: '1' :: rest, val, st =>
    (match num2 val with
     | some (n, v) => runLayout rest v { st with mo := n }
     | none => none)
  | '0' :: '2' :: rest, val, st =>
    (match num2 val with
     | some (n, v) => runLayout rest v { st with d := n }
     | none => none)
  | '1' :: '5' :: rest, val, st =>
    (match num1or2 val with
     | some (n, v) => runLayout rest v { st with h := n }
     | none => none)
  | '0' :: '4' :: rest, val, st =>
    (match num2 val with
     | some (n, v) => runLayout rest v { st with mi := n }
     | none => none)
  | '0' :: '5' :: rest, val, st =>
    (match num2 val with
     | some (n, v) => runLayout rest (skipFrac v) { st with s := n }
     | none => none)
  | 'J' :: 'a' :: 'n' :: rest, val, st =>
    (match monName val with
     | some (n, v) => runLayout rest v { st with mo := n }
     | none => none)
  | 'Z' :: '0' :: '7' :: ':' :: '0' :: '0' :: rest, val, st =>
    (match zoneColon val with
     | some (n, v) => runLayout rest v { st with off := n }
     | none => none)
  | '-' :: '0' :: '7' :: '0' :: '0' :: rest, val, st =>
    (match zoneNum val with
     | some (n, v) => runLayout rest v { st with off := n }
     | none => none)
  | '2' :: rest, val, st =>
    (match num1or2 val with
     | some (n, v) => runLayout rest v { st with d := n }
     | none => none)
  | c :: rest, val, st =>
    (match val with
     | v :: vs => if v == c then runLayout rest vs st else none
     | [] => none)

/-- time.Parse(layout, value) for the layouts used by main.go: parse and
then validate ranges (month 1..12, day within the month of the parsed
year, hour ≤ 23, minute and second ≤ 59), as Go does. -/
def goTimeParse (layout value : String) : Option GoTime :=
  match runLayout layout.toList value.toList ⟨0, 1, 1, 0, 0, 0, 0⟩ with
  | none => none
  | some st =>
    if 1 ≤ st.mo ∧ st.mo ≤ 12 ∧ 1 ≤ st.d ∧ st.d ≤ daysInMonth st.y st.mo
        ∧ st.h ≤ 23 ∧ st.mi ≤ 59 ∧ st.s ≤ 59 then
      some ⟨st.y, st.mo, st.d, st.h, st.mi, st.s, st.off⟩
    else none



/-! ## Model of the regexp patterns (logPatterns of main.go)

Go's regexp matches with leftmost-first (Perl-like) submatch semantics;
all five patterns are anchored at the start with a caret, so
FindStringSubmatch either matches at position 0 or not at all.  The
patterns use only literals, character classes under ?, +, * and counted
repetition, and non-nested sequential capture groups, so a small
backtracking matcher with greedy quantifiers implements exactly their
semantics.  Classes are rune-level, as in Go: \d = [0-9], \w =
[0-9A-Za-z_], \s = [\t\n\f\r ], dot = any rune but newline, and a negated
class matches any rune but the listed one (newline included). -/

inductive Quant where
  | one
  | star
  | plus
  | exactly (n : Nat)

/-- A simple pattern element: a literal or a quantified character class.
The five patterns of main.go contain no group nested inside another
group, so group bodies are lists of simple elements. -/
inductive SItem where
  | lit (c : Char)
  | cls (p : Char → Bool) (q : Quant)

/-- A top-level pattern element: a simple element or a capture group. -/
inductive RItem where
  | lit (c : Char)
  | cls (p : Char → Bool) (q : Quant)
  | grp (items : List SItem)

/-- A compiled pattern: an item sequence anchored at the start; when
`anchorEnd` is set the whole input must be consumed (the trailing $). -/
structure RE where
  items : List RItem
  anchorEnd : Bool

/-- Consume exactly n characters of class p. -/
def mRepExact : Nat → (Char → Bool) → List Char → Option (List Char)
  | 0, _, s => some s
  | n + 1, p, c :: cs => if p c then mRepExact n p cs else none
  | _ + 1, _, [] => none

/-- Greedy star with backtracking: try the longest tail first, then give
back one character at a time until the continuation succeeds. -/
def mStar {α : Type} (p : Char → Bool) : List Char → (List Char → Option α) → Option α
  | [], k => k []
  | c :: cs, k =>
    if p c then
      match mStar p cs k with
      | some r => some r
      | none => k (c :: cs)
    else k (c :: cs)

/-- Match a simple-element sequence in continuation-passing style. -/
def mSimple {α : Type} : List SItem → List Char → (List Char → Option α) → Option α
  | [], s, k => k s
  | .lit c :: rest, s, k =>
    (match s with
     | [] => none
     | x :: xs => if x == c then mSimple rest xs k else none)
  | .cls p .one :: rest, s, k =>
    (match s with
     | [] => none
     | x :: xs => if p x then mSimple rest xs k else none)
  | .cls p .star :: rest, s, k =>
    mStar p s (fun s2 => mSimple rest s2 k)
  | .cls p .plus :: rest, s, k =>
    (match s with
     | [] => none
     | x :: xs => if p x then mStar p xs (fun s2 => mSimple rest s2 k) else none)
  | .cls p (.exactly n) :: rest, s, k =>
    (match mRepExact n p s with
     | some s2 => mSimple rest s2 k
     | none => none)

/-- Match an item sequence against the input in continuation-passing
style; `caps` accumulates the text of each closed capture group, in
order. -/
def mItems {α : Type} :
    List RItem → List Char → List String → (List Char → List String → Option α) → Option α
  | [], s, caps, k => k s caps
  | .lit c :: rest, s, caps, k =>
    (match s with
     | [] => none
     | x :: xs => if x == c then mItems rest xs caps k else none)
  | .cls p .one :: rest, s, caps, k =>
    (match s with
     | [] => none
     | x :: xs => if p x then mItems rest xs caps k else none)
  | .cls p .star :: rest, s, caps, k =>
    mStar p s (fun s2 => mItems rest s2 caps k)
  | .cls p .plus :: rest, s, caps, k =>
    (match s with
     | [] => none
     | x :: xs => if p x then mStar p xs (fun s2 => mItems rest s2 caps k) else none)
  | .cls p (.exactly n) :: rest, s, caps, k =>
    (match mRepExact n p s with
     | some s2 => mItems rest s2 caps k
     | none => none)
  | .grp g :: rest, s, caps, k =>
    mSimple g s (fun s2 =>
      mItems rest s2 (caps ++ [String.mk (s.take (s.length - s2.length))]) k)

/-- regexp.FindStringSubmatch for a caret-anchored pattern: the full match
followed by the capture groups, or none.  Backtracking order makes this
leftmost-first, as Go's regexp submatch semantics prescribe. -/
def reMatch (re : RE) (line : String) : Option (List String) :=
  let s := line.toList
  mItems re.items s [] (fun s2 caps =>
    if re.anchorEnd && !s2.isEmpty then none
    else some (String.mk (s.take (s.length - s2.length)) :: caps))

/-- Class \d. -/
def clsDigit (c : Char) : Bool := c.isDigit

/-- Class \w. -/
def clsWord (c : Char) : Bool := c.isAlphanum || c == '_'

/-- Class \S. -/
def clsNotSpace (c : Char) : Bool := !reIsSpace c

/-- Class dot: any rune but newline. -/
def clsAny (c : Char) : Bool := c != '\n'

/-- Class post-bracket negation of the right square bracket. -/
def clsNotRB (c : Char) : Bool := c != ']'

/-- Negated class of the double quote. -/
def clsNotQuote (c : Char) : Bool := c != '\"'

/-- Negated class of the colon. -/
def clsNotColon (c : Char) : Bool := c != ':'

/-- Pattern "apache" of logPatterns. -/
def reApache : RE :=
  ⟨[.grp [.cls clsNotSpace .plus], .lit ' ', .cls clsNotSpace .plus, .lit ' ',
    .cls clsNotSpace .plus, .lit ' ', .lit '[', .grp [.cls clsNotRB .plus], .lit ']',
    .lit ' ', .lit '\"', .grp [.cls clsNotQuote .star], .lit '\"', .lit ' ',
    .grp [.cls clsDigit .plus], .lit ' ', .grp [.cls clsDigit .plus]], false⟩

/-- Pattern "nginx" of logPatterns. -/
def reNginx : RE :=
  ⟨[.grp [.cls clsNotSpace .plus], .lit ' ', .lit '-', .lit ' ', .lit '-', .lit ' ',
    .lit '[', .grp [.cls clsNotRB .plus], .lit ']', .lit ' ', .lit '\"',
    .grp [.cls clsNotQuote .star], .lit '\"', .lit ' ', .grp [.cls clsDigit .plus],
    .lit ' ', .grp [.cls clsDigit .plus], .lit ' ', .lit '\"',
    .grp [.cls clsNotQuote .star], .lit '\"', .lit ' ', .lit '\"',
    .grp [.cls clsNotQuote .star], .lit '\"'], false⟩

/-- Pattern "syslog" of logPatterns. -/
def reSyslog : RE :=
  ⟨[.grp [.cls clsWord .plus, .cls reIsSpace .plus, .cls clsDigit .plus,
      .cls reIsSpace .plus, .cls clsDigit .plus, .lit ':', .cls clsDigit .plus,
      .lit ':', .cls clsDigit .plus],
    .lit ' ', .grp [.cls clsNotSpace .plus], .lit ' ', .grp [.cls clsNotColon .plus],
    .lit ':', .lit ' ', .grp [.cls clsAny .star]], false⟩

/-- Pattern "generic" of logPatterns. -/
def reGeneric : RE :=
  ⟨[.grp [.cls clsDigit (.exactly 4), .lit '-', .cls clsDigit (.exactly 2), .lit '-',
      .cls clsDigit (.exactly 2), .cls reIsSpace .plus, .cls clsDigit (.exactly 2),
      .lit ':', .cls clsDigit (.exactly 2), .lit ':', .cls clsDigit (.exactly 2)],
    .cls reIsSpace .plus, .lit '[', .grp [.cls clsWord .plus], .lit ']',
    .cls reIsSpace .plus, .grp [.cls clsAny .star]], false⟩

/-- Pattern "json" of logPatterns (never consulted by parseLine, which
intercepts the json format before the pattern loop; compiled for
faithfulness to NewLogAnalyzer). -/
def reJson : RE := ⟨[.lit lbrace, .cls clsAny .star, .lit rbrace], true⟩

/-- The compiled pattern table of NewLogAnalyzer, as name-to-pattern
lookup (Go holds it in a map; only point lookups are performed on it). -/
def logPatterns : List (String × RE) :=
  [("apache", reApache), ("nginx", reNginx), ("syslog", reSyslog),
   ("generic", reGeneric), ("json", reJson)]

/-- Lookup in the pattern table. -/
def lookupPattern (name : String) : Option RE :=
  (logPatterns.find? (fun p => p.1 == name)).map (fun p => p.2)

/-! ## Model of encoding/json.Unmarshal into map[string]interface\x7b\x7d

A small JSON value parser with explicit fuel (any fuel at least the input
length suffices, and `unmarshalMap` supplies more): values are objects,
arrays, strings (with the standard escapes), numbers, booleans and null;
whitespace is space, tab, newline, carriage return.  Unmarshal into a
string-keyed map fails unless the top-level value is an object and
nothing but whitespace follows it; later duplicate keys overwrite
earlier ones.  Number contents never matter to parseJSON (only string
type assertions are performed), so numbers keep their raw text. -/

inductive JVal where
  | jnull
  | jbool (b : Bool)
  | jnum (raw : String)
  | jstr (s : String)
  | jarr (xs : List JVal)
  | jobj (fields : List (String × JVal))

/-- JSON insignificant whitespace. -/
def jIsWS (c : Char) : Bool := c == ' ' || c == '\t' || c == '\n' || c == '\r'

/-- Skip insignificant whitespace. -/
def jSkipWS (s : List Char) : List Char := s.dropWhile jIsWS

/-- Hex digit value, by code point: 0-9, a-f, A-F. -/
def hexVal (c : Char) : Option Nat :=
  let n := c.toNat
  if 48 ≤ n ∧ n ≤ 57 then some (n - 48)
  else if 97 ≤ n ∧ n ≤ 102 then some (n - 87)
  else if 65 ≤ n ∧ n ≤ 70 then some (n - 55)
  else none

/-- Four hex digits. -/
def hex4 : List Char → Option (Nat × List Char)
  | a :: b :: c :: d :: rest =>
    match hexVal a, hexVal b, hexVal c, hexVal d with
    | some x, some y, some z, some w => some (((x * 16 + y) * 16 + z) * 16 + w, rest)
    | _, _, _, _ => none
  | _ => none

/-- The body of a JSON string after the opening quote: the decoded text
and the input after the closing quote.  \uXXXX escapes: a high/low
surrogate pair combines; a lone surrogate becomes U+FFFD, as Go's
decoder produces. -/
def jString : Nat → List Char → Option (List Char × List Char)
  | 0, _ => none
  | _ + 1, [] => none
  | fuel + 1, c :: rest =>
    if c == '\"' then some ([], rest)
    else if c == '\\' then
      match rest with
      | [] => none
      | e :: rest2 =>
        let simple : Option Char :=
          if e == '\"' then some '\"'
          else if e == '\\' then some '\\'
          else if e == '/' then some '/'
          else if e == 'b' then some (Char.ofNat 8)
          else if e == 'f' then some (Char.ofNat 12)
          else if e == 'n' then some '\n'
          else if e == 'r' then some '\r'
          else if e == 't' then some '\t'
          else none
        match simple with
        | some ch =>
          (match jString fuel rest2 with
           | some (tail, after) => some (ch :: tail, after)
           | none => none)
        | none =>
          if e == 'u' then
            match hex4 rest2 with
            | none => none
            | some (n, rest3) =>
              if 0xD800 ≤ n && n ≤ 0xDBFF then
                match rest3 with
                | '\\' :: 'u' :: rest4 =>
                  (match hex4 rest4 with
                   | some (m, rest5) =>
                     if 0xDC00 ≤ m && m ≤ 0xDFFF then
                       let code := 0x10000 + (n - 0xD800) * 0x400 + (m - 0xDC00)
                       (match jString fuel rest5 with
                        | some (tail, after) => some (Char.ofNat code :: tail, after)
                        | none => none)
                     else
                       (match jString fuel rest3 with
                        | some (tail, after) => some (Char.ofNat 0xFFFD :: tail, after)
                        | none => none)
                   | none =>
                     (match jString fuel rest3 with
                      | some (tail, after) => some (Char.ofNat 0xFFFD :: tail, after)
                      | none => none))
                | _ =>
                  (match jString fuel rest3 with
                   | some (tail, after) => some (Char.ofNat 0xFFFD :: tail, after)
                   | none => none)
              else if 0xDC00 ≤ n && n ≤ 0xDFFF then
                (match jString fuel rest3 with
                 | some (tail, after) => some (Char.ofNat 0xFFFD :: tail, after)
                 | none => none)
              else
                (match jString fuel rest3 with
                 | some (tail, after) => some (Char.ofNat n :: tail, after)
                 | none => none)
          else none
    else if c.toNat < 0x20 then none
    else
      (match jString fuel rest with
       | some (tail, after) => some (c :: tail, after)
       | none => none)

/-- A JSON number: optional minus, integer part without leading zeros,
optional fraction and exponent; returns the raw consumed text. -/
def jNumber (s : List Char) : Option (List Char × List Char) :=
  let intTail : List Char → Option (List Char × List Char) := fun t =>
    match t with
    | '0' :: r => some (['0'], r)
    | c :: r =>
      if c.isDigit then
        let digs := r.takeWhile Char.isDigit
        some (c :: digs, r.dropWhile Char.isDigit)
      else none
    | [] => none
  let (neg, s1) :=
    match s with
    | '-' :: r => ([('-' : Char)], r)
    | _ => ([], s)
  match intTail s1 with
  | none => none
  | some (ip, s2) =>
    let (fp, s3) :=
      match s2 with
      | '.' :: r =>
        if (r.takeWhile Char.isDigit).isEmpty then ([('!' : Char)], [])
        else ('.' :: r.takeWhile Char.isDigit, r.dropWhile Char.isDigit)
      | _ => ([], s2)
    if fp == [('!' : Char)] then none
    else
      let (ep, s4) :=
        match s3 with
        | c :: r =>
          if c == 'e' || c == 'E' then
            match r with
            | sg :: r2 =>
              if sg == '+' || sg == '-' then
                if (r2.takeWhile Char.isDigit).isEmpty then ([('!' : Char)], [])
                else (c :: sg :: r2.takeWhile Char.isDigit, r2.dropWhile Char.isDigit)
              else if sg.isDigit then
                (c :: r.takeWhile Char.isDigit, r.dropWhile Char.isDigit)
              else ([('!' : Char)], [])
            | [] => ([('!' : Char)], [])
          else ([], s3)
        | [] => ([], s3)
      if ep == [('!' : Char)] then none
      else some (neg ++ ip ++ fp ++ ep, s4)

mutual

/-- A JSON value (with fuel; any fuel at least the input length suffices);
consumes leading whitespace. -/
def jValue : Nat → List Char → Option (JVal × List Char)
  | 0, _ => none
  | fuel + 1, s =>
    match jSkipWS s with
    | [] => none
    | c :: rest =>
      if c == lbrace then
        (match jSkipWS rest with
         | c2 :: rest2 =>
           if c2 == rbrace then some (.jobj [], rest2)
           else jMembers fuel (c2 :: rest2) []
         | [] => none)
      else if c == '[' then
        (match jSkipWS rest with
         | c2 :: rest2 =>
           if c2 == ']' then some (.jarr [], rest2)
           else jElements fuel (c2 :: rest2) []
         | [] => none)
      else if c == '\"' then
        (match jString (fuel + 1) rest with
         | some (txt, after) => some (.jstr (String.mk txt), after)
         | none => none)
      else if c == 't' then
        (match rest with
         | 'r' :: 'u' :: 'e' :: r => some (.jbool true, r)
         | _ => none)
      else if c == 'f' then
        (match rest with
         | 'a' :: 'l' :: 's' :: 'e' :: r => some (.jbool false, r)
         | _ => none)
      else if c == 'n' then
        (match rest with
         | 'u' :: 'l' :: 'l' :: r => some (.jnull, r)
         | _ => none)
      else
        (match jNumber (c :: rest) with
         | some (raw, after) => some (.jnum (String.mk raw), after)
         | none => none)

/-- The members of a non-empty object, the next starting at the head of
the input; later duplicate keys end up later in the field list (the
map lookup takes the last one, as Go map assignment overwrites). -/
def jMembers : Nat → List Char → List (String × JVal) → Option (JVal × List Char)
  | 0, _, _ => none
  | fuel + 1, s, acc =>
    match s with
    | '\"' :: rest =>
      (match jString (fuel + 1) rest with
       | some (key, afterKey) =>
         (match jSkipWS afterKey with
          | ':' :: afterColon =>
            (match jValue fuel afterColon with
             | some (v, afterVal) =>
               (match jSkipWS afterVal with
                | c2 :: rest2 =>
                  if c2 == rbrace then
                    some (.jobj (acc ++ [(String.mk key, v)]), rest2)
                  else if c2 == ',' then
                    jMembers fuel (jSkipWS rest2) (acc ++ [(String.mk key, v)])
                  else none
                | [] => none)
             | none => none)
          | _ => none)
       | none => none)
    | _ => none

/-- The elements of a non-empty array, the next starting at the head of
the input. -/
def jElements : Nat → List Char → List JVal → Option (JVal × List Char)
  | 0, _, _ => none
  | fuel + 1, s, acc =>
    match jValue fuel s with
    | some (v, afterVal) =>
      (match jSkipWS afterVal with
       | c2 :: rest2 =>
         if c2 == ']' then some (.jarr (acc ++ [v]), rest2)
         else if c2 == ',' then jElements fuel rest2 (acc ++ [v])
         else none
       | [] => none)
    | none => none

end

/-- json.Unmarshal of one line into map[string]interface\x7b\x7d: the
top-level value must be an object and only whitespace may follow it;
otherwise Unmarshal returns an error, modelled as none. -/
def unmarshalMap (line : String) : Option (List (String × JVal)) :=
  match jValue (line.toList.length + 2) line.toList with
  | some (v, rest) =>
    if (jSkipWS rest).isEmpty then
      match v with
      | .jobj fields => some fields
      | _ => none
    else none
  | none => none

/-- Lookup in the decoded map: Go map assignment overwrites, so of
duplicate keys the last wins. -/
def jLookup (fields : List (String × JVal)) (key : String) : Option JVal :=
  (fields.reverse.find? (fun f => f.1 == key)).map (fun f => f.2)

/-- The Go type assertion v.(string) applied to a map lookup: some text
exactly when the key is present with a string value. -/
def jGetString (fields : List (String × JVal)) (key : String) : Option String :=
  match jLookup fields key with
  | some (.jstr s) => some s
  | _ => none

/-! ## The data model and the line parser (main.go) -/

/-- LogEntry of main.go; an unset timestamp is the Go zero time value. -/
structure LogEntry where
  Timestamp : GoTime
  Level : String
  Message : String
  Source : String
  Raw : String
deriving DecidableEq, Repr

/-- inferLogLevel of main.go: uppercase the message and scan for level
keywords in priority order. -/
def inferLogLevel (message : String) : String :=
  let m := goToUpper message
  if goContains m "ERROR" || goContains m "FATAL" || goContains m "CRITICAL" then "ERROR"
  else if goContains m "WARN" || goContains m "WARNING" then "WARN"
  else if goContains m "DEBUG" || goContains m "TRACE" then "DEBUG"
  else "INFO"

/-- The RFC 3339 reference layout (the time.RFC3339 constant). -/
def rfc3339Layout : String := "2006-01-02T15:04:05Z07:00"

/-- parseJSON of main.go: unmarshal the line into a generic map; on error
return a record holding the raw line as its message; otherwise pick the
recognized fields, each one best-effort. -/
def parseJSON (line : String) : LogEntry :=
  match unmarshalMap line with
  | none => ⟨goZeroTime, "", line, "", line⟩
  | some fields =>
    let ts :=
      match jGetString fields "timestamp" with
      | some raw =>
        (match goTimeParse rfc3339Layout raw with
         | some t => t
         | none => goZeroTime)
      | none => goZeroTime
    let lvl :=
      match jGetString fields "level" with
      | some l => goToUpper l
      | none => ""
    let msg :=
      match jGetString fields "message" with
      | some m => m
      | none =>
        (match jGetString fields "msg" with
         | some m => m
         | none => "")
    let src :=
      match jGetString fields "source" with
      | some s => s
      | none =>
        (match jGetString fields "component" with
         | some s => s
         | none => "")
    ⟨ts, lvl, msg, src, line⟩

/-- strconv.Atoi: a full-string optionally signed decimal integer within
the signed 64-bit range. -/
def goAtoi (s : String) : Option Int :=
  let digits : List Char → Option Nat := fun l =>
    if l.isEmpty || !(l.all Char.isDigit) then none
    else some (l.foldl (fun acc c => acc * 10 + (c.toNat - '0'.toNat)) 0)
  match s.toList with
  | '+' :: rest =>
    (match digits rest with
     | some n => if n ≤ 9223372036854775807 then some (Int.ofNat n) else none
     | none => none)
  | '-' :: rest =>
    (match digits rest with
     | some n => if n ≤ 9223372036854775808 then some (-(Int.ofNat n)) else none
     | none => none)
  | l =>
    (match digits l with
     | some n => if n ≤ 9223372036854775807 then some (Int.ofNat n) else none
     | none => none)

/-- The layout a syslog timestamp group is parsed with. -/
def syslogLayout : String := "Jan 2 15:04:05"

/-- The layout a generic-pattern timestamp group is parsed with. -/
def genericLayout : String := "2006-01-02 15:04:05"

/-- The layout an apache/nginx timestamp group is parsed with. -/
def apacheLayout : String := "02/Jan/2006:15:04:05 -0700"

/-- parseWithPattern of main.go: build the record from the capture groups
of the pattern that matched.  `ms` is FindStringSubmatch's result
(full match at index 0); `nowYear` is time.Now().Year(), made an explicit
parameter. -/
def parseWithPattern (nowYear : Int) (line patternName : String)
    (ms : List String) : LogEntry :=
  if patternName == "generic" then
    if 4 ≤ ms.length then
      let ts :=
        match goTimeParse genericLayout (ms.getD 1 "") with
        | some t => t
        | none => goZeroTime
      ⟨ts, goToUpper (ms.getD 2 ""), ms.getD 3 "", "", line⟩
    else ⟨goZeroTime, "", "", "", line⟩
  else if patternName == "syslog" then
    if 5 ≤ ms.length then
      let ts :=
        match goTimeParse syslogLayout (ms.getD 1 "") with
        | some t => addDate t nowYear 0 0
        | none => goZeroTime
      let msg := ms.getD 4 ""
      ⟨ts, inferLogLevel msg, msg, ms.getD 2 "", line⟩
    else ⟨goZeroTime, "", "", "", line⟩
  else if patternName == "apache" || patternName == "nginx" then
    if 4 ≤ ms.length then
      let ts :=
        match goTimeParse apacheLayout (ms.getD 2 "") with
        | some t => t
        | none => goZeroTime
      let lvl :=
        if 5 ≤ ms.length then
          match goAtoi (ms.getD 4 "") with
          | some status =>
            if 500 ≤ status then "ERROR" else if 400 ≤ status then "WARN" else "INFO"
          | none => ""
        else ""
      ⟨ts, lvl, ms.getD 3 "", ms.getD 1 "", line⟩
    else ⟨goZeroTime, "", "", "", line⟩
  else ⟨goZeroTime, "", "", "", line⟩

/-- The four fixed timestamp layouts parseGeneric tries, in order. -/
def timeLayouts : List String :=
  ["2006-01-02 15:04:05", "2006/01/02 15:04:05", "Jan 2 15:04:05",
   "2006-01-02T15:04:05Z07:00"]

/-- The loop of parseGeneric: try each layout against the prefix of the
line of the layout's length; the first success wins and the loop breaks. -/
def genericScan : List String → String → Option (GoTime × String)
  | [], _ => none
  | layout :: rest, line =>
    let n := layout.toList.length
    if n ≤ line.toList.length then
      match goTimeParse layout (String.mk (line.toList.take n)) with
      | some t => some (t, layout)
      | none => genericScan rest line
    else genericScan rest line

/-- parseGeneric of main.go: best-effort fallback.  The message starts as
the whole line; a successful prefix parse replaces it with the
whitespace-trimmed rest after the prefix plus one separator character,
but only when the line is strictly longer than the prefix plus one; the
level is always inferred from the final message. -/
def parseGeneric (line : String) : LogEntry :=
  match genericScan timeLayouts line with
  | none => ⟨goZeroTime, inferLogLevel line, line, "", line⟩
  | some (t, layout) =>
    let n := layout.toList.length
    let msg :=
      if n + 1 < line.toList.length then
        goTrimSpace (String.mk (line.toList.drop (n + 1)))
      else line
    ⟨t, inferLogLevel msg, msg, "", line⟩

/-- The matcher loop of parseLine: try each named pattern in order; the
first whose shape matches the line wins; with none left, fall back to
parseGeneric. -/
def tryPatterns (nowYear : Int) (line : String) : List String → LogEntry
  | [] => parseGeneric line
  | name :: rest =>
    match lookupPattern name with
    | some re =>
      (match reMatch re line with
       | some ms => parseWithPattern nowYear line name ms
       | none => tryPatterns nowYear line rest)
    | none => tryPatterns nowYear line rest

/-- parseLine of main.go: json (explicit, or auto with a brace-led trimmed
line) goes to the JSON extractor; otherwise the pattern loop runs over
the explicit format name alone, or for auto over the fixed priority
sequence generic, syslog, apache, nginx. -/
def parseLine (nowYear : Int) (line format : String) : LogEntry :=
  if format == "json" || (format == "auto" && goStartsWith (goTrimSpace line) "\x7b") then
    parseJSON line
  else
    tryPatterns nowYear line
      (if format == "auto" then ["generic", "syslog", "apache", "nginx"] else [format])

/-! ## Filters (filterEntries and matchesFilters of main.go) -/

/-- Filters of main.go. -/
structure Filters where
  Level : String
  StartTime : Option GoTime
  EndTime : Option GoTime
  Source : String
  Keyword : String
deriving DecidableEq, Repr

/-- matchesFilters of main.go (the live-follow filter). -/
def matchesFilters (f : Filters) (e : LogEntry) : Bool :=
  if f.Level != "" && e.Level != f.Level then false
  else if f.Source != "" && !(goContains (goToLower e.Source) (goToLower f.Source)) then false
  else if f.Keyword != "" && !(goContains (goToLower e.Message) (goToLower f.Keyword)) then false
  else if (match f.StartTime with
           | some st => !(goIsZero e.Timestamp) && goBefore e.Timestamp st
           | none => false) then false
  else if (match f.EndTime with
           | some en => !(goIsZero e.Timestamp) && goAfter e.Timestamp en
           | none => false) then false
  else true

/-- filterEntries of main.go (the one-shot filter loop), as a function of
the filter spec and the accumulated entries. -/
def filterEntries (f : Filters) : List LogEntry → List LogEntry
  | [] => []
  | e :: rest =>
    if f.Level != "" && e.Level != f.Level then filterEntries f rest
    else if f.Source != "" && !(goContains (goToLower e.Source) (goToLower f.Source)) then
      filterEntries f rest
    else if f.Keyword != "" && !(goContains (goToLower e.Message) (goToLower f.Keyword)) then
      filterEntries f rest
    else if (match f.StartTime with
             | some st => !(goIsZero e.Timestamp) && goBefore e.Timestamp st
             | none => false) then filterEntries f rest
    else if (match f.EndTime with
             | some en => !(goIsZero e.Timestamp) && goAfter e.Timestamp en
             | none => false) then filterEntries f rest
    else e :: filterEntries f rest

/-! ## Statistics (showStats and printTopMap of main.go) -/

/-- LogStats of main.go.  The frequency tables are Go maps; the model
keeps them as key-count association lists (first-insertion order).  The
formatted TimeRange string is kept as the pair of endpoint times it is
formatted from (present exactly when both ends were set). -/
structure LogStats where
  TotalLines : Nat
  ErrorCount : Nat
  WarnCount : Nat
  InfoCount : Nat
  DebugCount : Nat
  TimeRange : Option (GoTime × GoTime)
  TopSources : List (String × Nat)
  TopErrors : List (String × Nat)
deriving DecidableEq, Repr

/-- Increment a key of a frequency table (Go map increment m[k]++). -/
def bump : List (String × Nat) → String → List (String × Nat)
  | [], key => [(key, 1)]
  | (k, v) :: rest, key =>
    if k == key then (k, v + 1) :: rest else (k, v) :: bump rest key

/-- The running state of showStats's aggregation loop. -/
structure StatsAcc where
  errorCount : Nat
  warnCount : Nat
  infoCount : Nat
  debugCount : Nat
  topSources : List (String × Nat)
  topErrors : List (String × Nat)
  earliest : GoTime
  latest : GoTime
deriving DecidableEq, Repr

/-- One iteration of showStats's loop over the entries. -/
def statsStep (acc : StatsAcc) (e : LogEntry) : StatsAcc :=
  let a1 :=
    if e.Level == "ERROR" then
      { acc with errorCount := acc.errorCount + 1, topErrors := bump acc.topErrors e.Message }
    else if e.Level == "WARN" then { acc with warnCount := acc.warnCount + 1 }
    else if e.Level == "INFO" then { acc with infoCount := acc.infoCount + 1 }
    else if e.Level == "DEBUG" then { acc with debugCount := acc.debugCount + 1 }
    else acc
  let a2 :=
    if e.Source != "" then { a1 with topSources := bump a1.topSources e.Source } else a1
  if !(goIsZero e.Timestamp) then
    let a3 :=
      if goIsZero a2.earliest || goBefore e.Timestamp a2.earliest then
        { a2 with earliest := e.Timestamp }
      else a2
    if goIsZero a3.latest || goAfter e.Timestamp a3.latest then
      { a3 with latest := e.Timestamp }
    else a3
  else a2

/-- The aggregation showStats computes over a record set. -/
def showStatsOf (entries : List LogEntry) : LogStats :=
  let acc := entries.foldl statsStep ⟨0, 0, 0, 0, [], [], goZeroTime, goZeroTime⟩
  { TotalLines := entries.length
    ErrorCount := acc.errorCount
    WarnCount := acc.warnCount
    InfoCount := acc.infoCount
    DebugCount := acc.debugCount
    TimeRange :=
      if !(goIsZero acc.earliest) && !(goIsZero acc.latest) then
        some (acc.earliest, acc.latest)
      else none
    TopSources := acc.topSources
    TopErrors := acc.topErrors }

/-- The analyzer state main builds before branching on the mode: the
parsed entries and the filter spec. -/
structure AnalyzerState where
  entries : List LogEntry
  filters : Filters
deriving DecidableEq, Repr

/-- The statistics the stats-mode branch of main reports: showStats reads
la.entries, the accumulated (unfiltered) record set. -/
def mainStats (la : AnalyzerState) : LogStats := showStatsOf la.entries

/-- Stable insertion by descending count (the comparison sort.Slice is
called with; sort.Slice itself is an unstable comparison sort over one
arbitrary iteration order of the Go map, so any comparison sort with the
same less function models it — the tie order is not a function of the
map either way). -/
def insertByCount (x : String × Nat) : List (String × Nat) → List (String × Nat)
  | [] => [x]
  | y :: ys => if y.2 < x.2 then x :: y :: ys else y :: insertByCount x ys

/-- Sort a frequency table by count, descending. -/
def sortByCountDesc : List (String × Nat) → List (String × Nat)
  | [] => []
  | x :: xs => insertByCount x (sortByCountDesc xs)

/-- printTopMap of main.go: `m` is one iteration sequence of the Go map
(iteration order is randomized, so it is an explicit input); sort by
count descending, then print at most `limit` entries; the returned list
is the sequence of printed entries. -/
def printTopMap (m : List (String × Nat)) (limit : Nat) : List (String × Nat) :=
  (sortByCountDesc m).take limit

/-! ## Supporting lemmas -/

theorem parseJSON_raw (line : String) : (parseJSON line).Raw = line := by
  unfold parseJSON
  cases h : unmarshalMap line <;> simp [h]

theorem parseWithPattern_raw (nowYear : Int) (line patternName : String)
    (ms : List String) : (parseWithPattern nowYear line patternName ms).Raw = line := by
  unfold parseWithPattern
  repeat' first | rfl | split

theorem parseGeneric_raw (line : String) : (parseGeneric line).Raw = line := by
  unfold parseGeneric
  repeat' first | rfl | split

theorem tryPatterns_raw (nowYear : Int) (line : String) :
    ∀ names, (tryPatterns nowYear line names).Raw = line := by
  intro names
  induction names with
  | nil => exact parseGeneric_raw line
  | cons name rest ih =>
    simp only [tryPatterns]
    cases lookupPattern name with
    | none => exact ih
    | some re =>
      cases h : reMatch re line with
      | none => simpa [h] using ih
      | some ms => simp [h, parseWithPattern_raw]

theorem filterEntries_cons (f : Filters) (e : LogEntry) (rest : List LogEntry) :
    filterEntries f (e :: rest) =
      if matchesFilters f e then e :: filterEntries f rest else filterEntries f rest := by
  by_cases h1 : (f.Level != "" && e.Level != f.Level) = true
  · simp [filterEntries, matchesFilters, h1]
  · by_cases h2 :
        (f.Source != "" && !(goContains (goToLower e.Source) (goToLower f.Source))) = true
    · simp [filterEntries, matchesFilters, h1, h2]
    · by_cases h3 :
          (f.Keyword != "" && !(goContains (goToLower e.Message) (goToLower f.Keyword))) = true
      · simp [filterEntries, matchesFilters, h1, h2, h3]
      · by_cases h4 :
            (match f.StartTime with
             | some st => !(goIsZero e.Timestamp) && goBefore e.Timestamp st
             | none => false) = true
        · simp [filterEntries, matchesFilters, h1, h2, h3, h4]
        · by_cases h5 :
              (match f.EndTime with
               | some en => !(goIsZero e.Timestamp) && goAfter e.Timestamp en
               | none => false) = true
          · simp [filterEntries, matchesFilters, h1, h2, h3, h4, h5]
          · simp [filterEntries, matchesFilters, h1, h2, h3, h4, h5]

/-! ## Claim theorems -/

/-- C10: the one-shot filter and the live-follow filter implement
identical semantics: filterEntries returns exactly the subsequence, in
original order, of the entries on which matchesFilters is true. -/
theorem filterEntries_eq_filter_matchesFilters (f : Filters) (entries : List LogEntry) :
    filterEntries f entries = entries.filter (fun e => matchesFilters f e) := by
  induction entries with
  | nil => rfl
  | cons e rest ih =>
    rw [filterEntries_cons, List.filter_cons, ih]

/-- C6: a record whose timestamp is unset (the zero instant) is never
excluded by the time-range conditions: matchesFilters under any
combination of start and end bounds coincides with matchesFilters under
no bounds, so only the level, source and keyword conditions can exclude
the record. -/
theorem matchesFilters_zero_timestamp (f : Filters) (e : LogEntry)
    (st en : Option GoTime) (h : goIsZero e.Timestamp = true) :
    matchesFilters { f with StartTime := st, EndTime := en } e =
      matchesFilters { f with StartTime := none, EndTime := none } e := by
  cases st <;> cases en <;> simp [matchesFilters, h]

/-- Witness for C6: a concrete zero-timestamp record passes bounds that
would otherwise exclude everything. -/
theorem matchesFilters_zero_timestamp_witness :
    matchesFilters ⟨"", some ⟨2030, 1, 1, 0, 0, 0, 0⟩, some ⟨2020, 1, 1, 0, 0, 0, 0⟩, "", ""⟩
        ⟨goZeroTime, "INFO", "m", "s", "r"⟩ =
      matchesFilters ⟨"", none, none, "", ""⟩ ⟨goZeroTime, "INFO", "m", "s", "r"⟩ :=
  matchesFilters_zero_timestamp ⟨"", none, none, "", ""⟩ ⟨goZeroTime, "INFO", "m", "s", "r"⟩
    (some ⟨2030, 1, 1, 0, 0, 0, 0⟩) (some ⟨2020, 1, 1, 0, 0, 0, 0⟩) (by decide)

/-- C3: inferLogLevel is total (always one of the four levels) and scans
the uppercased message for keyword substrings in the priority order
ERROR, WARN, DEBUG, with INFO the default; goContains is exactly
substring occurrence. -/
theorem inferLogLevel_spec (msg : String) :
    (inferLogLevel msg = "ERROR" ∨ inferLogLevel msg = "WARN" ∨
      inferLogLevel msg = "DEBUG" ∨ inferLogLevel msg = "INFO")
    ∧ (∀ kw : String, goContains (goToUpper msg) kw = true ↔ occursIn kw (goToUpper msg))
    ∧ ((goContains (goToUpper msg) "ERROR" || goContains (goToUpper msg) "FATAL" ||
          goContains (goToUpper msg) "CRITICAL") = true → inferLogLevel msg = "ERROR")
    ∧ ((goContains (goToUpper msg) "ERROR" || goContains (goToUpper msg) "FATAL" ||
          goContains (goToUpper msg) "CRITICAL") = false →
        (goContains (goToUpper msg) "WARN" || goContains (goToUpper msg) "WARNING") = true →
        inferLogLevel msg = "WARN")
    ∧ ((goContains (goToUpper msg) "ERROR" || goContains (goToUpper msg) "FATAL" ||
          goContains (goToUpper msg) "CRITICAL") = false →
        (goContains (goToUpper msg) "WARN" || goContains (goToUpper msg) "WARNING") = false →
        (goContains (goToUpper msg) "DEBUG" || goContains (goToUpper msg) "TRACE") = true →
        inferLogLevel msg = "DEBUG")
    ∧ ((goContains (goToUpper msg) "ERROR" || goContains (goToUpper msg) "FATAL" ||
          goContains (goToUpper msg) "CRITICAL") = false →
        (goContains (goToUpper msg) "WARN" || goContains (goToUpper msg) "WARNING") = false →
        (goContains (goToUpper msg) "DEBUG" || goContains (goToUpper msg) "TRACE") = false →
        inferLogLevel msg = "INFO") := by
  have hbridge : ∀ kw : String,
      goContains (goToUpper msg) kw = true ↔ occursIn kw (goToUpper msg) :=
    fun kw => goContains_iff (goToUpper msg) kw
  by_cases hE :
      (goContains (goToUpper msg) "ERROR" || goContains (goToUpper msg) "FATAL" ||
        goContains (goToUpper msg) "CRITICAL") = true
  · have hv : inferLogLevel msg = "ERROR" := by simp only [inferLogLevel, hE, if_true]
    refine ⟨Or.inl hv, hbridge, fun _ => hv, ?_, ?_, ?_⟩
    · intro hfalse _; rw [hE] at hfalse; cases hfalse
    · intro hfalse _ _; rw [hE] at hfalse; cases hfalse
    · intro hfalse _ _; rw [hE] at hfalse; cases hfalse
  · have hE2 :
        (goContains (goToUpper msg) "ERROR" || goContains (goToUpper msg) "FATAL" ||
          goContains (goToUpper msg) "CRITICAL") = false := by
      simpa using hE
    by_cases hW :
        (goContains (goToUpper msg) "WARN" || goContains (goToUpper msg) "WARNING") = true
    · have hv : inferLogLevel msg = "WARN" := by
        simp only [inferLogLevel, hE2, hW, if_true, if_false, Bool.false_eq_true]
      refine ⟨Or.inr (Or.inl hv), hbridge, ?_, fun _ _ => hv, ?_, ?_⟩
      · intro htrue; rw [hE2] at htrue; cases htrue
      · intro _ hfalse _; rw [hW] at hfalse; cases hfalse
      · intro _ hfalse _; rw [hW] at hfalse; cases hfalse
    · have hW2 :
          (goContains (goToUpper msg) "WARN" || goContains (goToUpper msg) "WARNING") = false := by
        simpa using hW
      by_cases hD :
          (goContains (goToUpper msg) "DEBUG" || goContains (goToUpper msg) "TRACE") = true
      · have hv : inferLogLevel msg = "DEBUG" := by
          simp only [inferLogLevel, hE2, hW2, hD, if_true, if_false, Bool.false_eq_true]
        refine ⟨Or.inr (Or.inr (Or.inl hv)), hbridge, ?_, ?_, fun _ _ _ => hv, ?_⟩
        · intro htrue; rw [hE2] at htrue; cases htrue
        · intro _ htrue; rw [hW2] at htrue; cases htrue
        · intro _ _ hfalse; rw [hD] at hfalse; cases hfalse
      · have hD2 :
            (goContains (goToUpper msg) "DEBUG" || goContains (goToUpper msg) "TRACE") = false := by
          simpa using hD
        have hv : inferLogLevel msg = "INFO" := by
          simp only [inferLogLevel, hE2, hW2, hD2, if_false, Bool.false_eq_true]
        refine ⟨Or.inr (Or.inr (Or.inr hv)), hbridge, ?_, ?_, ?_, fun _ _ _ => hv⟩
        · intro htrue; rw [hE2] at htrue; cases htrue
        · intro _ htrue; rw [hW2] at htrue; cases htrue
        · intro _ _ htrue; rw [hD2] at htrue; cases htrue

/-- Witness for C3: a message containing both an ERROR keyword and a WARN
keyword is classified ERROR (priority order when keywords co-occur). -/
theorem inferLogLevel_spec_witness :
    goContains (goToUpper "error and warn") "ERROR" = true
    ∧ goContains (goToUpper "error and warn") "WARN" = true
    ∧ inferLogLevel "error and warn" = "ERROR" :=
  ⟨by decide, by decide, (inferLogLevel_spec "error and warn").2.2.1 (by decide)⟩

/-- C1: for every line and every format-selection string parseLine yields
a record whose Raw field is exactly the input line, and on the JSON path
a line that fails to unmarshal degrades to a record whose Message is the
raw line with all other fields empty or zero. -/
theorem parseLine_total_raw (nowYear : Int) (line format : String) :
    (parseLine nowYear line format).Raw = line
    ∧ ((unmarshalMap line).isNone = true →
        (format = "json" ∨ (format = "auto" ∧ goStartsWith (goTrimSpace line) "\x7b" = true)) →
        parseLine nowYear line format = ⟨goZeroTime, "", line, "", line⟩) := by
  constructor
  · unfold parseLine
    by_cases hc :
        (format == "json" || (format == "auto" && goStartsWith (goTrimSpace line) "\x7b")) = true
    · simp only [hc, if_true]
      exact parseJSON_raw line
    · simp only [hc, if_false, Bool.not_eq_true] at *
      rw [if_neg (by simp [hc])]
      exact tryPatterns_raw nowYear line _
  · intro hj hfmt
    have hc :
        (format == "json" || (format == "auto" && goStartsWith (goTrimSpace line) "\x7b")) = true := by
      rcases hfmt with h | ⟨h1, h2⟩
      · subst h; simp
      · subst h1; simp [h2]
    unfold parseLine
    rw [if_pos hc]
    unfold parseJSON
    cases h : unmarshalMap line with
    | none => rfl
    | some fields => rw [h] at hj; simp at hj

/-- Witness for C1: a non-JSON line under the explicit json format
degrades to the raw-as-message record. -/
theorem parseLine_total_raw_witness :
    (unmarshalMap "oops").isNone = true
    ∧ parseLine 2024 "oops" "json" = ⟨goZeroTime, "", "oops", "", "oops"⟩
    ∧ (parseLine 2024 "oops" "json").Raw = "oops" :=
  ⟨by decide,
   (parseLine_total_raw 2024 "oops" "json").2 (by decide) (Or.inl rfl),
   (parseLine_total_raw 2024 "oops" "json").1⟩

/-! ## Statistics lemmas -/

/-- Number of entries at a given level. -/
def countLevel (lvl : String) (es : List LogEntry) : Nat :=
  es.countP (fun e => e.Level == lvl)

theorem statsStep_counts (acc : StatsAcc) (e : LogEntry) :
    (statsStep acc e).errorCount = acc.errorCount + (if e.Level == "ERROR" then 1 else 0)
    ∧ (statsStep acc e).warnCount = acc.warnCount + (if e.Level == "WARN" then 1 else 0)
    ∧ (statsStep acc e).infoCount = acc.infoCount + (if e.Level == "INFO" then 1 else 0)
    ∧ (statsStep acc e).debugCount = acc.debugCount + (if e.Level == "DEBUG" then 1 else 0) := by
  refine ⟨?_, ?_, ?_, ?_⟩ <;>
    simp only [statsStep, apply_ite StatsAcc.errorCount, apply_ite StatsAcc.warnCount,
      apply_ite StatsAcc.infoCount, apply_ite StatsAcc.debugCount, ite_self] <;>
    repeat' first | omega | split | simp_all

theorem foldl_statsStep_counts (es : List LogEntry) :
    ∀ acc : StatsAcc,
      (es.foldl statsStep acc).errorCount = acc.errorCount + countLevel "ERROR" es
      ∧ (es.foldl statsStep acc).warnCount = acc.warnCount + countLevel "WARN" es
      ∧ (es.foldl statsStep acc).infoCount = acc.infoCount + countLevel "INFO" es
      ∧ (es.foldl statsStep acc).debugCount = acc.debugCount + countLevel "DEBUG" es := by
  induction es with
  | nil => intro acc; simp [countLevel]
  | cons e rest ih =>
    intro acc
    rcases ih (statsStep acc e) with ⟨he, hw, hi, hd⟩
    rcases statsStep_counts acc e with ⟨se, sw, si, sd⟩
    simp only [List.foldl_cons, countLevel, List.countP_cons] at *
    constructor
    · rw [he, se]; omega
    constructor
    · rw [hw, sw]; omega
    constructor
    · rw [hi, si]; omega
    · rw [hd, sd]; omega

theorem countLevels_sum (es : List LogEntry) :
    countLevel "ERROR" es + countLevel "WARN" es + countLevel "INFO" es
        + countLevel "DEBUG" es ≤ es.length
    ∧ (countLevel "ERROR" es + countLevel "WARN" es + countLevel "INFO" es
          + countLevel "DEBUG" es = es.length ↔
        ∀ e ∈ es, e.Level = "ERROR" ∨ e.Level = "WARN" ∨ e.Level = "INFO"
          ∨ e.Level = "DEBUG") := by
  induction es with
  | nil => simp [countLevel]
  | cons e rest ih =>
    rcases ih with ⟨ihle, ihiff⟩
    by_cases h : e.Level = "ERROR" ∨ e.Level = "WARN" ∨ e.Level = "INFO" ∨ e.Level = "DEBUG"
    · have hone :
          (if e.Level == "ERROR" then 1 else 0) + (if e.Level == "WARN" then 1 else 0)
            + (if e.Level == "INFO" then 1 else 0) + (if e.Level == "DEBUG" then 1 else 0)
            = (1 : Nat) := by
        rcases h with h | h | h | h <;> simp [h]
      simp only [countLevel, List.countP_cons, List.length_cons, List.mem_cons] at *
      constructor
      · omega
      · constructor
        · intro hsum
          have : countLevel "ERROR" rest + countLevel "WARN" rest + countLevel "INFO" rest
              + countLevel "DEBUG" rest = rest.length := by
            simp only [countLevel] at *; omega
          intro x hx
          rcases hx with rfl | hx
          · exact h
          · exact (ihiff.mp this) x hx
        · intro hall
          have : countLevel "ERROR" rest + countLevel "WARN" rest + countLevel "INFO" rest
              + countLevel "DEBUG" rest = rest.length :=
            ihiff.mpr (fun x hx => hall x (Or.inr hx))
          simp only [countLevel] at *; omega
    · have hzero :
          (if e.Level == "ERROR" then 1 else 0) + (if e.Level == "WARN" then 1 else 0)
            + (if e.Level == "INFO" then 1 else 0) + (if e.Level == "DEBUG" then 1 else 0)
            = (0 : Nat) := by
        push_neg at h
        rcases h with ⟨h1, h2, h3, h4⟩
        simp [h1, h2, h3, h4]
      simp only [countLevel, List.countP_cons, List.length_cons, List.mem_cons] at *
      constructor
      · omega
      · constructor
        · intro hsum; omega
        · intro hall
          exact absurd (hall e (Or.inl rfl)) h

/-- C7: over every record set the Aggregator counts satisfy
ErrorCount + WarnCount + InfoCount + DebugCount ≤ TotalLines, with
equality exactly when every record's level is one of the four known
values; records with any other level are counted in the total but in no
level bucket. -/
theorem showStats_level_sum (entries : List LogEntry) :
    (showStatsOf entries).ErrorCount + (showStatsOf entries).WarnCount
        + (showStatsOf entries).InfoCount + (showStatsOf entries).DebugCount
        ≤ (showStatsOf entries).TotalLines
    ∧ ((showStatsOf entries).ErrorCount + (showStatsOf entries).WarnCount
          + (showStatsOf entries).InfoCount + (showStatsOf entries).DebugCount
          = (showStatsOf entries).TotalLines ↔
        ∀ e ∈ entries, e.Level = "ERROR" ∨ e.Level = "WARN" ∨ e.Level = "INFO"
          ∨ e.Level = "DEBUG") := by
  rcases foldl_statsStep_counts entries ⟨0, 0, 0, 0, [], [], goZeroTime, goZeroTime⟩
    with ⟨he, hw, hi, hd⟩
  have hE : (showStatsOf entries).ErrorCount = countLevel "ERROR" entries := by
    simpa [showStatsOf] using he
  have hW : (showStatsOf entries).WarnCount = countLevel "WARN" entries := by
    simpa [showStatsOf] using hw
  have hI : (showStatsOf entries).InfoCount = countLevel "INFO" entries := by
    simpa [showStatsOf] using hi
  have hD : (showStatsOf entries).DebugCount = countLevel "DEBUG" entries := by
    simpa [showStatsOf] using hd
  have hT : (showStatsOf entries).TotalLines = entries.length := rfl
  rw [hE, hW, hI, hD, hT]
  exact countLevels_sum entries

/-- Witness for C7: the bound and the equality case evaluated on a
concrete mixed record set (one unknown level, counted in the total but
in no bucket). -/
theorem showStats_level_sum_witness :
    (showStatsOf [⟨goZeroTime, "ERROR", "a", "", "a"⟩, ⟨goZeroTime, "NOTICE", "b", "", "b"⟩]).ErrorCount
        + (showStatsOf [⟨goZeroTime, "ERROR", "a", "", "a"⟩, ⟨goZeroTime, "NOTICE", "b", "", "b"⟩]).WarnCount
        + (showStatsOf [⟨goZeroTime, "ERROR", "a", "", "a"⟩, ⟨goZeroTime, "NOTICE", "b", "", "b"⟩]).InfoCount
        + (showStatsOf [⟨goZeroTime, "ERROR", "a", "", "a"⟩, ⟨goZeroTime, "NOTICE", "b", "", "b"⟩]).DebugCount
        ≤ (showStatsOf [⟨goZeroTime, "ERROR", "a", "", "a"⟩, ⟨goZeroTime, "NOTICE", "b", "", "b"⟩]).TotalLines :=
  (showStats_level_sum [⟨goZeroTime, "ERROR", "a", "", "a"⟩, ⟨goZeroTime, "NOTICE", "b", "", "b"⟩]).1

/-- C2 (code evaluation at the failing input): in statistics mode the
program aggregates over the unfiltered record set la.entries; with one
INFO entry and a level filter ERROR, the reported total is 1, while the
statistics of the filtered (pre-head/tail) set the claim prescribes
would have total 0. -/
theorem mainStats_ignores_filters :
    mainStats ⟨[⟨goZeroTime, "INFO", "hello", "", "hello"⟩], ⟨"ERROR", none, none, "", ""⟩⟩
        = showStatsOf [⟨goZeroTime, "INFO", "hello", "", "hello"⟩]
    ∧ (mainStats ⟨[⟨goZeroTime, "INFO", "hello", "", "hello"⟩],
          ⟨"ERROR", none, none, "", ""⟩⟩).TotalLines = 1
    ∧ filterEntries ⟨"ERROR", none, none, "", ""⟩ [⟨goZeroTime, "INFO", "hello", "", "hello"⟩] = []
    ∧ (showStatsOf (filterEntries ⟨"ERROR", none, none, "", ""⟩
          [⟨goZeroTime, "INFO", "hello", "", "hello"⟩])).TotalLines = 0 :=
  ⟨rfl, by decide, by decide, by decide⟩

/-! ## Top-N sorting lemmas -/

theorem insertByCount_perm (x : String × Nat) (l : List (String × Nat)) :
    (insertByCount x l).Perm (x :: l) := by
  induction l with
  | nil => exact List.Perm.refl _
  | cons y ys ih =>
    unfold insertByCount
    split
    · exact List.Perm.refl _
    · exact (ih.cons y).trans (List.Perm.swap x y ys)

theorem sortByCountDesc_perm (l : List (String × Nat)) :
    (sortByCountDesc l).Perm l := by
  induction l with
  | nil => exact List.Perm.refl _
  | cons x xs ih =>
    exact (insertByCount_perm x (sortByCountDesc xs)).trans (ih.cons x)

theorem insertByCount_sorted (x : String × Nat) (l : List (String × Nat))
    (h : l.Pairwise (fun a b => b.2 ≤ a.2)) :
    (insertByCount x l).Pairwise (fun a b => b.2 ≤ a.2) := by
  induction l with
  | nil => simp [insertByCount]
  | cons y ys ih =>
    rcases List.pairwise_cons.mp h with ⟨hy, hys⟩
    unfold insertByCount
    split
    · refine List.pairwise_cons.mpr ⟨?_, h⟩
      intro z hz
      rcases List.mem_cons.mp hz with rfl | hz
      · omega
      · have := hy z hz; omega
    · refine List.pairwise_cons.mpr ⟨?_, ih hys⟩
      intro z hz
      rcases List.mem_cons.mp ((insertByCount_perm x ys).mem_iff.mp hz) with rfl | hz
      · omega
      · exact hy z hz

theorem sortByCountDesc_sorted (l : List (String × Nat)) :
    (sortByCountDesc l).Pairwise (fun a b => b.2 ≤ a.2) := by
  induction l with
  | nil => simp [sortByCountDesc]
  | cons x xs ih => exact insertByCount_sorted x (sortByCountDesc xs) ih

/-- C8 (amended): printTopMap emits at most 5 entries, sorted by count in
descending order, truncating only after sorting the full table; the
sorted table is a permutation of the input iteration sequence.  (The
relative order of tied counts is arbitrary: it depends on the map's
randomized iteration order, see the counterexample.) -/
theorem printTopMap_sorted_bounded (m : List (String × Nat)) :
    (printTopMap m 5).length ≤ 5
    ∧ (printTopMap m 5).Pairwise (fun a b => b.2 ≤ a.2)
    ∧ printTopMap m 5 = (sortByCountDesc m).take 5
    ∧ (sortByCountDesc m).Perm m :=
  ⟨by simp [printTopMap],
   (sortByCountDesc_sorted m).sublist (List.take_sublist 5 (sortByCountDesc m)),
   rfl,
   sortByCountDesc_perm m⟩

/-- Counterexample for C8: two iteration orders of the same two-element
frequency table (Go map iteration order is randomized, so both occur)
print tied entries in different orders, so ties are not broken by any
stable count-only rule determined by the table. -/
theorem printTopMap_tie_order_arbitrary :
    printTopMap [("a", 1), ("b", 1)] 5 ≠ printTopMap [("b", 1), ("a", 1)] 5
    ∧ ([(("a" : String), (1 : Nat)), ("b", 1)]).Perm [("b", 1), ("a", 1)] :=
  ⟨by decide, List.Perm.swap ("b", 1) ("a", 1) []⟩

/-- C5: when the syslog pattern matched and its timestamp group parses
(at year 0, as the layout has no year), the record's timestamp is that
year-0 time advanced by the current year number with AddDate semantics;
group 2 becomes the source, group 4 the message, and the level comes
from Level Inference on the message.  The closed conjuncts pin the
AddDate semantics: Feb 29 of year 0 advanced by 2023 years normalizes to
March 1, 2023 — not a time whose year field is merely set to 2023. -/
theorem parseWithPattern_syslog_spec (nowYear : Int) (line : String)
    (ms : List String) (t : GoTime) (h5 : 5 ≤ ms.length)
    (ht : goTimeParse syslogLayout (ms.getD 1 "") = some t) :
    parseWithPattern nowYear line "syslog" ms =
      ⟨addDate t nowYear 0 0, inferLogLevel (ms.getD 4 ""), ms.getD 4 "",
        ms.getD 2 "", line⟩
    ∧ goTimeParse syslogLayout "Feb 29 12:00:00" = some ⟨0, 2, 29, 12, 0, 0, 0⟩
    ∧ addDate ⟨0, 2, 29, 12, 0, 0, 0⟩ 2023 0 0 = ⟨2023, 3, 1, 12, 0, 0, 0⟩ := by
  refine ⟨?_, by decide, by decide⟩
  rw [List.getD_eq_getElem?_getD] at ht
  simp [parseWithPattern, h5, ht]

/-- Witness for C5: a concrete matched syslog line with a Feb 29
timestamp, under current year 2023, lands on March 1, 2023. -/
theorem parseWithPattern_syslog_spec_witness :
    parseWithPattern 2023 "Feb 29 12:00:00 host proc: hello" "syslog"
        ["Feb 29 12:00:00 host proc: hello", "Feb 29 12:00:00", "host", "proc", "hello"] =
      ⟨⟨2023, 3, 1, 12, 0, 0, 0⟩, "INFO", "hello", "host",
        "Feb 29 12:00:00 host proc: hello"⟩ :=
  ((parseWithPattern_syslog_spec 2023 "Feb 29 12:00:00 host proc: hello"
      ["Feb 29 12:00:00 host proc: hello", "Feb 29 12:00:00", "host", "proc", "hello"]
      ⟨0, 2, 29, 12, 0, 0, 0⟩ (by decide) (by decide)).1).trans (by decide)

/-- C4: parseLine's dispatch.  Format json always delegates to the JSON
extractor, as does auto when the trimmed line starts with a brace;
otherwise under auto the matchers are tried in the fixed order generic,
syslog, apache, nginx, the first structural match wins, and with no
match the generic best-effort fallback runs. -/
theorem parseLine_dispatch (nowYear : Int) (line : String) :
    parseLine nowYear line "json" = parseJSON line
    ∧ (goStartsWith (goTrimSpace line) "\x7b" = true →
        parseLine nowYear line "auto" = parseJSON line)
    ∧ (goStartsWith (goTrimSpace line) "\x7b" = false →
        (∀ ms, reMatch reGeneric line = some ms →
          parseLine nowYear line "auto" = parseWithPattern nowYear line "generic" ms)
        ∧ (reMatch reGeneric line = none →
            ∀ ms, reMatch reSyslog line = some ms →
              parseLine nowYear line "auto" = parseWithPattern nowYear line "syslog" ms)
        ∧ (reMatch reGeneric line = none → reMatch reSyslog line = none →
            ∀ ms, reMatch reApache line = some ms →
              parseLine nowYear line "auto" = parseWithPattern nowYear line "apache" ms)
        ∧ (reMatch reGeneric line = none → reMatch reSyslog line = none →
            reMatch reApache line = none →
            ∀ ms, reMatch reNginx line = some ms →
              parseLine nowYear line "auto" = parseWithPattern nowYear line "nginx" ms)
        ∧ (reMatch reGeneric line = none → reMatch reSyslog line = none →
            reMatch reApache line = none → reMatch reNginx line = none →
            parseLine nowYear line "auto" = parseGeneric line)) := by
  have lg : lookupPattern "generic" = some reGeneric := rfl
  have lsy : lookupPattern "syslog" = some reSyslog := rfl
  have lap : lookupPattern "apache" = some reApache := rfl
  have lng : lookupPattern "nginx" = some reNginx := rfl
  refine ⟨by simp [parseLine], fun h => by simp [parseLine, h], fun h => ?_⟩
  have hline : parseLine nowYear line "auto" =
      tryPatterns nowYear line ["generic", "syslog", "apache", "nginx"] := by
    simp [parseLine, h]
  refine ⟨?_, ?_, ?_, ?_, ?_⟩
  · intro ms hms
    rw [hline]; simp only [tryPatterns, lg, hms]
  · intro hg ms hms
    rw [hline]; simp only [tryPatterns, lg, lsy, hg, hms]
  · intro hg hs ms hms
    rw [hline]; simp only [tryPatterns, lg, lsy, lap, hg, hs, hms]
  · intro hg hs ha ms hms
    rw [hline]; simp only [tryPatterns, lg, lsy, lap, lng, hg, hs, ha, hms]
  · intro hg hs ha hn
    rw [hline]; simp only [tryPatterns, lg, lsy, lap, lng, hg, hs, ha, hn]

/-- Witness for C4: a line matching only the syslog shape dispatches to
the syslog extractor with its capture groups. -/
theorem parseLine_dispatch_witness :
    parseLine 2024 "Oct 10 13:55:36 myhost sshd: connection closed" "auto" =
      parseWithPattern 2024 "Oct 10 13:55:36 myhost sshd: connection closed" "syslog"
        ["Oct 10 13:55:36 myhost sshd: connection closed", "Oct 10 13:55:36", "myhost",
         "sshd", "connection closed"] :=
  ((parseLine_dispatch 2024 "Oct 10 13:55:36 myhost sshd: connection closed").2.2
      (by decide)).2.1 (by decide)
    ["Oct 10 13:55:36 myhost sshd: connection closed", "Oct 10 13:55:36", "myhost",
     "sshd", "connection closed"] (by decide)

/-- C9 (amended): parseGeneric tries the four fixed layouts in order
against the line's prefix of the layout's length; the first success sets
the timestamp and the loop stops; the message becomes the
whitespace-trimmed remainder after the prefix plus one separator
character only when the line is strictly longer than prefix plus one,
and otherwise stays the whole line; with no success the message is the
whole line and the timestamp stays unset; the level is always inferred
from the final message. -/
theorem parseGeneric_spec (line : String) :
    (genericScan timeLayouts line = none →
        parseGeneric line = ⟨goZeroTime, inferLogLevel line, line, "", line⟩)
    ∧ (∀ t layout, genericScan timeLayouts line = some (t, layout) →
        parseGeneric line =
          ⟨t,
           inferLogLevel (if layout.toList.length + 1 < line.toList.length then
               goTrimSpace (String.mk (line.toList.drop (layout.toList.length + 1)))
             else line),
           (if layout.toList.length + 1 < line.toList.length then
               goTrimSpace (String.mk (line.toList.drop (layout.toList.length + 1)))
             else line), "", line⟩)
    ∧ (∀ t, 19 ≤ line.toList.length →
        goTimeParse "2006-01-02 15:04:05" (String.mk (line.toList.take 19)) = some t →
        genericScan timeLayouts line = some (t, "2006-01-02 15:04:05"))
    ∧ (∀ t, 19 ≤ line.toList.length →
        goTimeParse "2006-01-02 15:04:05" (String.mk (line.toList.take 19)) = none →
        goTimeParse "2006/01/02 15:04:05" (String.mk (line.toList.take 19)) = some t →
        genericScan timeLayouts line = some (t, "2006/01/02 15:04:05"))
    ∧ (∀ t, (19 ≤ line.toList.length →
          goTimeParse "2006-01-02 15:04:05" (String.mk (line.toList.take 19)) = none ∧
          goTimeParse "2006/01/02 15:04:05" (String.mk (line.toList.take 19)) = none) →
        14 ≤ line.toList.length →
        goTimeParse "Jan 2 15:04:05" (String.mk (line.toList.take 14)) = some t →
        genericScan timeLayouts line = some (t, "Jan 2 15:04:05"))
    ∧ (∀ t, (19 ≤ line.toList.length →
          goTimeParse "2006-01-02 15:04:05" (String.mk (line.toList.take 19)) = none ∧
          goTimeParse "2006/01/02 15:04:05" (String.mk (line.toList.take 19)) = none) →
        (14 ≤ line.toList.length →
          goTimeParse "Jan 2 15:04:05" (String.mk (line.toList.take 14)) = none) →
        25 ≤ line.toList.length →
        goTimeParse "2006-01-02T15:04:05Z07:00" (String.mk (line.toList.take 25)) = some t →
        genericScan timeLayouts line = some (t, "2006-01-02T15:04:05Z07:00")) := by
  have hcons : ∀ (layout : String) (rest : List String) (n : Nat),
      layout.toList.length = n →
      genericScan (layout :: rest) line =
        if n ≤ line.toList.length then
          match goTimeParse layout (String.mk (line.toList.take n)) with
          | some t => some (t, layout)
          | none => genericScan rest line
        else genericScan rest line := by
    intro layout rest n hn
    subst hn
    rfl
  refine ⟨?_, ?_, ?_, ?_, ?_, ?_⟩
  · intro h; unfold parseGeneric; rw [h]
  · intro t layout h; unfold parseGeneric; rw [h]
  · intro t hl ht
    rw [timeLayouts, hcons "2006-01-02 15:04:05" _ 19 rfl, if_pos hl, ht]
  · intro t hl h1 ht
    rw [timeLayouts, hcons "2006-01-02 15:04:05" _ 19 rfl, if_pos hl, h1,
      hcons "2006/01/02 15:04:05" _ 19 rfl, if_pos hl, ht]
  · intro t h12 hl ht
    rw [timeLayouts]
    by_cases h19 : 19 ≤ line.toList.length
    · rcases h12 h19 with ⟨h1, h2⟩
      rw [hcons "2006-01-02 15:04:05" _ 19 rfl, if_pos h19, h1,
        hcons "2006/01/02 15:04:05" _ 19 rfl, if_pos h19, h2,
        hcons "Jan 2 15:04:05" _ 14 rfl, if_pos hl, ht]
    · rw [hcons "2006-01-02 15:04:05" _ 19 rfl, if_neg h19,
        hcons "2006/01/02 15:04:05" _ 19 rfl, if_neg h19,
        hcons "Jan 2 15:04:05" _ 14 rfl, if_pos hl, ht]
  · intro t h12 h3 hl ht
    have h14 : 14 ≤ line.toList.length := by omega
    have h19 : 19 ≤ line.toList.length := by omega
    rcases h12 h19 with ⟨h1, h2⟩
    rw [timeLayouts, hcons "2006-01-02 15:04:05" _ 19 rfl, if_pos h19, h1,
      hcons "2006/01/02 15:04:05" _ 19 rfl, if_pos h19, h2,
      hcons "Jan 2 15:04:05" _ 14 rfl, if_pos h14, h3 h14,
      hcons "2006-01-02T15:04:05Z07:00" _ 25 rfl, if_pos hl, ht]

/-- Witness for C9: on a line strictly longer than the first layout's
prefix plus one character the timestamp is taken from the prefix and the
message is the trimmed remainder. -/
theorem parseGeneric_spec_witness :
    genericScan timeLayouts "2024-01-01 10:00:00 hello" =
      some (⟨2024, 1, 1, 10, 0, 0, 0⟩, "2006-01-02 15:04:05")
    ∧ parseGeneric "2024-01-01 10:00:00 hello" =
      ⟨⟨2024, 1, 1, 10, 0, 0, 0⟩, "INFO", "hello", "", "2024-01-01 10:00:00 hello"⟩ := by
  have h := parseGeneric_spec "2024-01-01 10:00:00 hello"
  have hscan := h.2.2.1 ⟨2024, 1, 1, 10, 0, 0, 0⟩ (by decide) (by decide)
  exact ⟨hscan,
    (h.2.1 ⟨2024, 1, 1, 10, 0, 0, 0⟩ "2006-01-02 15:04:05" hscan).trans (by decide)⟩

/-- Counterexample for C9: a line that is exactly a parseable timestamp.
The timestamp is set from the prefix, yet the message is the whole line
(timestamp text included), not the empty remainder after the prefix plus
one separator that the claim prescribes. -/
theorem parseGeneric_exact_length_line :
    (parseGeneric "2024-01-01 10:00:00").Timestamp = ⟨2024, 1, 1, 10, 0, 0, 0⟩
    ∧ (parseGeneric "2024-01-01 10:00:00").Message = "2024-01-01 10:00:00"
    ∧ String.mk (("2024-01-01 10:00:00" : String).toList.drop 20) = ""
    ∧ (parseGeneric "2024-01-01 10:00:00").Message ≠
        String.mk (("2024-01-01 10:00:00" : String).toList.drop 20) :=
  ⟨by decide, by decide, by decide, by decide⟩

end LogA
